import Mathlib

/-!
Verification of the rotation engine of the Web-Display-Screen repository
(`src/components/Display.tsx`), shallowly embedded in Lean 4.

Indices and JS numbers are modelled as `Int`; JS array access that can yield
`undefined` is modelled with `Option`; the nullable `display_duration` column
(schema: `display_duration integer default 10`, no NOT NULL) is `Option Int`.
Outstanding `setTimeout` handles are modelled explicitly as a list of `Timer`
records so that "at most one timer is live" is a provable property rather
than a typing artifact.
-/

namespace WebDisplay

/-- `transition_type` from `src/types.ts`: `'fade' | 'slide' | 'none'`. -/
inductive TransitionType where
  | fade
  | slide
  | none
deriving DecidableEq, Repr

/-- The `Announcement` interface from `src/types.ts`, with `display_duration`
optional because the database column is nullable. -/
structure Announcement where
  id : String
  image_url : String
  display_duration : Option Int
  transition_type : TransitionType
  active : Bool
  created_at : String
deriving DecidableEq, Repr

/-- JS array indexing `announcements[currentIndex]`: `undefined` (here `none`)
for a negative or out-of-range index. -/
def jsGet (l : List Announcement) (i : Int) : Option Announcement :=
  if 0 ≤ i then l.get? i.toNat else Option.none

/-- `currentAnnouncement?.display_duration` — `none` when the index is out of
range or the field is null. -/
def rawDuration (l : List Announcement) (i : Int) : Option Int :=
  (jsGet l i).bind (fun a => a.display_duration)

/-- `(currentAnnouncement?.display_duration || 10) * 1000`: the `||` replaces a
falsy value (`undefined`, `null`, `0`) by the 10-second default. -/
def cycleDuration (l : List Announcement) (i : Int) : Int :=
  (match rawDuration l i with
   | Option.some d => if d = 0 then 10 else d
   | Option.none => 10) * 1000

/-- One armed `setTimeout`.  `delayMs` is the delay passed to `setTimeout`;
`capturedLen` is `announcements.length` captured by the callback closure. -/
structure Timer where
  handle : Nat
  delayMs : Int
  capturedLen : Nat
deriving DecidableEq, Repr

/-- The state of the mounted `Display` component: the React state variables
`announcements`, `currentIndex`, `refreshInterval`, `loading`, together with an
explicit account of outstanding advance timers.  `armed` is the handle stored
in the cycle effect's `timer` variable (cleared by the effect's cleanup);
`live` lists every timer armed and neither cleared nor fired; `nextHandle`
supplies fresh handles. -/
structure DisplayState where
  announcements : List Announcement
  currentIndex : Int
  refreshInterval : Int
  loading : Bool
  armed : Option Nat
  live : List Timer
  nextHandle : Nat
deriving DecidableEq, Repr

/-- The cycle effect (Display.tsx lines 176–187) together with the cleanup of
its previous run.  React runs the previous cleanup (`clearTimeout(timer)`)
first, then the body: early return when `announcements.length <= 1`, else arm
`setTimeout(.., duration)` whose callback advances the index modulo the
captured length. -/
def runCycleEffect (s : DisplayState) : DisplayState :=
  let cleaned := s.live.filter (fun t => !(s.armed == Option.some t.handle))
  if s.announcements.length ≤ 1 then
    { s with live := cleaned, armed := Option.none }
  else
    { s with
        live := cleaned ++ [⟨s.nextHandle, cycleDuration s.announcements s.currentIndex,
                             s.announcements.length⟩],
        armed := Option.some s.nextHandle,
        nextHandle := s.nextHandle + 1 }

/-- Events that mutate rotation state: a timer firing, the manual `handlePrev`
and `handleNext` buttons, direct index selection via an indicator dot, and
wholesale list replacement by a successful fetch. -/
inductive Event where
  | fire (h : Nat)
  | next
  | prev
  | select (i : Int)
  | replace (l : List Announcement)

/-- The state update an event performs, before the cycle effect reconciles.
The prev/next buttons are only rendered when the list is nonempty (the
component returns the "No Displays" screen for an empty list), so `next`/`prev`
are guarded by `length ≠ 0`; a `fire` of a handle that is not live does
nothing. -/
def applyEvent (s : DisplayState) (e : Event) : DisplayState :=
  match e with
  | Event.fire h =>
    match s.live.find? (fun t => t.handle == h) with
    | Option.none => s
    | Option.some t =>
      { s with
          live := s.live.filter (fun t' => !(t'.handle == h)),
          currentIndex := (s.currentIndex + 1) % (t.capturedLen : Int) }
  | Event.next =>
    if s.announcements.length = 0 then s
    else { s with currentIndex := (s.currentIndex + 1) % (s.announcements.length : Int) }
  | Event.prev =>
    if s.announcements.length = 0 then s
    else { s with
             currentIndex :=
               (s.currentIndex - 1 + (s.announcements.length : Int)) % (s.announcements.length : Int) }
  | Event.select i => { s with currentIndex := i }
  | Event.replace l => { s with announcements := l }

/-- One event followed by React reconciliation.  The cycle effect has
dependencies `[currentIndex, announcements]`: it re-runs after a list
replacement (a fetched array is a fresh reference) and after any index change,
and is skipped when the index value is unchanged. -/
def step (s : DisplayState) (e : Event) : DisplayState :=
  match e with
  | Event.replace l => runCycleEffect (applyEvent s (Event.replace l))
  | _ =>
    let s' := applyEvent s e
    if s'.currentIndex = s.currentIndex then s' else runCycleEffect s'

/-- `fetchAnnouncements` (Display.tsx lines 133–159) as a function of both
query outcomes: on a list error the list is kept (the error is logged); on
success the list becomes `data || []`; when the settings row is present
`refreshInterval` is replaced; `loading` always becomes `false`. -/
def fetchAnnouncements (s : DisplayState)
    (listRes : Except String (Option (List Announcement)))
    (settingsRes : Option Int) : DisplayState :=
  let s1 := match listRes with
    | Except.error _ => s
    | Except.ok data => { s with announcements := data.getD [] }
  let s2 := match settingsRes with
    | Option.none => s1
    | Option.some ri => { s1 with refreshInterval := ri }
  { s2 with loading := false }

/-- The poll effect's interval (Display.tsx lines 166–173):
`Math.max(1, refreshInterval)` minutes converted to milliseconds. -/
def pollIntervalMs (refreshInterval : Int) : Int :=
  let safeInterval := max 1 refreshInterval
  safeInterval * 60 * 1000

/-- `getTransitionClass` (Display.tsx lines 207–225). -/
def getTransitionClass (index : Int) (currentIdx : Int) (type : TransitionType) : String :=
  let isActive := index == currentIdx
  if type = TransitionType.none then
    if isActive then "opacity-100" else "opacity-0 hidden"
  else if type = TransitionType.slide then
    if isActive then "translate-x-0 opacity-100" else "translate-x-full opacity-0"
  else
    if isActive then "opacity-100" else "opacity-0"

/-- `isItemLoaded` (Display.tsx lines 235–247). -/
def isItemLoaded (l : List Announcement) (currentIndex : Int) (index : Int) : Bool :=
  if l.length ≤ 1 then true
  else
    let len : Int := l.length
    index == currentIndex
      || index == (currentIndex + 1) % len
      || index == (currentIndex - 1 + len) % len

/-- The set of in-range indices whose media element is materialized: the map
over `announcements` renders `AnnouncementMedia` with `shouldLoad =
isItemLoaded(index)`, and `shouldLoad = false` renders nothing. -/
def loadedSet (l : List Announcement) (currentIndex : Int) : Finset Nat :=
  (Finset.range l.length).filter (fun i => isItemLoaded l currentIndex (i : Int))

/-! ### Modular-arithmetic helpers -/

theorem emod_absorb_left (a b N : Int) : (a % N + b) % N = (a + b) % N := by
  conv_lhs => rw [Int.add_emod, Int.emod_emod_of_dvd a (dvd_refl N), ← Int.add_emod]

theorem next_then_prev_emod (i N : Int) (h0 : 0 ≤ i) (h1 : i < N) :
    ((i + 1) % N - 1 + N) % N = i := by
  have h2 : (i + 1) % N - 1 + N = (i + 1) % N + (N - 1) := by ring
  rw [h2, emod_absorb_left]
  have h3 : i + 1 + (N - 1) = i + N * 1 := by ring
  rw [h3, Int.add_mul_emod_self_left]
  exact Int.emod_eq_of_lt h0 h1

theorem prev_then_next_emod (i N : Int) (h0 : 0 ≤ i) (h1 : i < N) :
    ((i - 1 + N) % N + 1) % N = i := by
  rw [emod_absorb_left]
  have h3 : i - 1 + N + 1 = i + N * 1 := by ring
  rw [h3, Int.add_mul_emod_self_left]
  exact Int.emod_eq_of_lt h0 h1

theorem next_emod_ne (i N : Int) (hN : 2 ≤ N) : (i + 1) % N ≠ i := by
  intro h
  have h0 : 0 ≤ (i + 1) % N := Int.emod_nonneg _ (by omega)
  have h1 : (i + 1) % N < N := Int.emod_lt_of_pos _ (by omega)
  rw [h] at h0 h1
  have hi : i % N = i := Int.emod_eq_of_lt h0 h1
  have h2 : (i + 1) % N = i % N := by rw [h, hi]
  rw [Int.emod_eq_emod_iff_emod_sub_eq_zero] at h2
  have h3 : i + 1 - i = 1 := by ring
  rw [h3, Int.emod_eq_of_lt (by omega) (by omega)] at h2
  exact one_ne_zero h2

theorem prev_emod_ne (i N : Int) (hN : 2 ≤ N) : (i - 1 + N) % N ≠ i := by
  intro h
  have h0 : 0 ≤ (i - 1 + N) % N := Int.emod_nonneg _ (by omega)
  have h1 : (i - 1 + N) % N < N := Int.emod_lt_of_pos _ (by omega)
  rw [h] at h0 h1
  have hi : i % N = i := Int.emod_eq_of_lt h0 h1
  have h2 : (i - 1 + N) % N = i % N := by rw [h, hi]
  rw [Int.emod_eq_emod_iff_emod_sub_eq_zero] at h2
  have h3 : i - 1 + N - i = N - 1 := by ring
  rw [h3, Int.emod_eq_of_lt (by omega) (by omega)] at h2
  omega

/-! ### Basic facts about the cycle effect and the step function -/

theorem runCycleEffect_announcements (s : DisplayState) :
    (runCycleEffect s).announcements = s.announcements := by
  by_cases h : s.announcements.length ≤ 1 <;> simp [runCycleEffect, h]

theorem runCycleEffect_currentIndex (s : DisplayState) :
    (runCycleEffect s).currentIndex = s.currentIndex := by
  by_cases h : s.announcements.length ≤ 1 <;> simp [runCycleEffect, h]

theorem applyEvent_next_eq (s : DisplayState) (h : s.announcements.length ≠ 0) :
    applyEvent s Event.next =
      { s with currentIndex := (s.currentIndex + 1) % (s.announcements.length : Int) } := by
  simp [applyEvent, h]

theorem applyEvent_prev_eq (s : DisplayState) (h : s.announcements.length ≠ 0) :
    applyEvent s Event.prev =
      { s with currentIndex :=
          (s.currentIndex - 1 + (s.announcements.length : Int)) % (s.announcements.length : Int) } := by
  simp [applyEvent, h]

theorem step_next_projs (s : DisplayState) (h : s.announcements.length ≠ 0) :
    (step s Event.next).currentIndex = (s.currentIndex + 1) % (s.announcements.length : Int) ∧
    (step s Event.next).announcements = s.announcements := by
  unfold step
  rw [applyEvent_next_eq s h]
  dsimp only
  by_cases hc : ((s.currentIndex + 1) % (s.announcements.length : Int)) = s.currentIndex
  · rw [if_pos hc]; exact ⟨rfl, rfl⟩
  · rw [if_neg hc]; exact ⟨runCycleEffect_currentIndex _, runCycleEffect_announcements _⟩

theorem step_prev_projs (s : DisplayState) (h : s.announcements.length ≠ 0) :
    (step s Event.prev).currentIndex =
      (s.currentIndex - 1 + (s.announcements.length : Int)) % (s.announcements.length : Int) ∧
    (step s Event.prev).announcements = s.announcements := by
  unfold step
  rw [applyEvent_prev_eq s h]
  dsimp only
  by_cases hc : ((s.currentIndex - 1 + (s.announcements.length : Int)) %
      (s.announcements.length : Int)) = s.currentIndex
  · rw [if_pos hc]; exact ⟨rfl, rfl⟩
  · rw [if_neg hc]; exact ⟨runCycleEffect_currentIndex _, runCycleEffect_announcements _⟩

/-! ### Claim theorems (first batch) -/

/-- C5: a failing announcements query always retains the previously held list
(the error is only logged), and when the settings row is also absent the
refresh interval is retained too, so the next poll is scheduled at the same
cadence as before. -/
theorem C5_fetch_failure_retains_state (s : DisplayState) (msg : String)
    (settingsRes : Option Int) :
    (fetchAnnouncements s (Except.error msg) settingsRes).announcements = s.announcements ∧
    (fetchAnnouncements s (Except.error msg) Option.none).refreshInterval = s.refreshInterval ∧
    pollIntervalMs (fetchAnnouncements s (Except.error msg) Option.none).refreshInterval =
      pollIntervalMs s.refreshInterval := by
  refine ⟨?_, rfl, rfl⟩
  cases settingsRes <;> rfl

/-- C6: for every fetched `refresh_interval`, including 0 and negative values,
the poll cadence equals `max(1, refresh_interval)` minutes converted to
milliseconds; in particular a non-positive value is clamped to one minute. -/
theorem C6_poll_cadence_clamped (r : Int) :
    pollIntervalMs r = max 1 r * 60 * 1000 ∧ (r ≤ 0 → pollIntervalMs r = 60000) := by
  refine ⟨rfl, fun h => ?_⟩
  unfold pollIntervalMs
  rw [max_eq_left (by omega)]
  norm_num

/-- Witness for C6 at the concrete fetched value `-3`. -/
theorem C6_poll_cadence_clamped_witness : pollIntervalMs (-3) = 60000 :=
  (C6_poll_cadence_clamped (-3)).2 (by norm_num)

/-- C8: the computed transition class is, for `none`, fully opaque when the
index is current and hidden otherwise; for `slide`, at rest position and opaque
when current, translated fully off-stage and transparent otherwise; for `fade`,
opaque when current and transparent otherwise. -/
theorem C8_transition_classes (i c : Int) :
    (getTransitionClass i c TransitionType.none =
      if i = c then "opacity-100" else "opacity-0 hidden") ∧
    (getTransitionClass i c TransitionType.slide =
      if i = c then "translate-x-0 opacity-100" else "translate-x-full opacity-0") ∧
    (getTransitionClass i c TransitionType.fade =
      if i = c then "opacity-100" else "opacity-0") := by
  by_cases h : i = c <;> simp [getTransitionClass, h]

/-- C10: for every list of length ≥ 1 and every in-range current index, manual
next followed by manual prev (and prev followed by next) returns the current
index to its original value. -/
theorem C10_nav_roundtrip (s : DisplayState) (hN : 1 ≤ s.announcements.length)
    (h0 : 0 ≤ s.currentIndex) (h1 : s.currentIndex < (s.announcements.length : Int)) :
    (step (step s Event.next) Event.prev).currentIndex = s.currentIndex ∧
    (step (step s Event.prev) Event.next).currentIndex = s.currentIndex := by
  have hne : s.announcements.length ≠ 0 := by omega
  constructor
  · obtain ⟨hn1, hn2⟩ := step_next_projs s hne
    obtain ⟨hp1, _⟩ := step_prev_projs (step s Event.next) (by rw [hn2]; exact hne)
    rw [hp1, hn1, hn2]
    exact next_then_prev_emod _ _ h0 h1
  · obtain ⟨hp1, hp2⟩ := step_prev_projs s hne
    obtain ⟨hn1, _⟩ := step_next_projs (step s Event.prev) (by rw [hp2]; exact hne)
    rw [hn1, hp1, hp2]
    exact prev_then_next_emod _ _ h0 h1

/-- Sample announcements used to exercise the claim theorems at concrete
inputs. -/
def annA : Announcement :=
  ⟨"id-a", "a.png", Option.some 5, TransitionType.fade, true, "2024-01-01"⟩

def annB : Announcement :=
  ⟨"id-b", "b.mp4", Option.some 7, TransitionType.slide, true, "2024-01-02"⟩

def annC : Announcement :=
  ⟨"id-c", "c.png", Option.some 15, TransitionType.none, true, "2024-01-03"⟩

/-- A cycling state: three items, current index 2, one armed timer. -/
def exCycling3 : DisplayState :=
  { announcements := [annA, annB, annC]
    currentIndex := 2
    refreshInterval := 5
    loading := false
    armed := Option.some 0
    live := [⟨0, 15000, 3⟩]
    nextHandle := 1 }

/-- Witness for C10 at the concrete cycling state with index 2 of 3. -/
theorem C10_nav_roundtrip_witness :
    (step (step exCycling3 Event.next) Event.prev).currentIndex = 2 ∧
    (step (step exCycling3 Event.prev) Event.next).currentIndex = 2 :=
  C10_nav_roundtrip exCycling3 (by decide) (by decide) (by decide)

/-- C7: for a list of length 1 the cycle effect arms no timer, and manual
next/prev are no-ops leaving the state (in particular `current_index = 0`)
unchanged; consequently any burst of manual navigation leaves the state
unchanged. -/
theorem C7_single_item (s : DisplayState)
    (hlen : s.announcements.length = 1) (hidx : s.currentIndex = 0)
    (hlive : s.live = []) :
    (runCycleEffect s).live = [] ∧ step s Event.next = s ∧ step s Event.prev = s ∧
    (∀ es : List Event, (∀ e ∈ es, e = Event.next ∨ e = Event.prev) →
      es.foldl step s = s) := by
  have hne : s.announcements.length ≠ 0 := by omega
  have hnext : step s Event.next = s := by
    unfold step
    rw [applyEvent_next_eq s hne, hlen, hidx]
    norm_num
    rw [← hidx]
  have hprev : step s Event.prev = s := by
    unfold step
    rw [applyEvent_prev_eq s hne, hlen, hidx]
    norm_num
    rw [← hidx]
  refine ⟨by simp [runCycleEffect, hlen, hlive], hnext, hprev, ?_⟩
  intro es hes
  induction es with
  | nil => rfl
  | cons e rest ih =>
    have he := hes e (List.mem_cons_self e rest)
    have hrest : ∀ e' ∈ rest, e' = Event.next ∨ e' = Event.prev :=
      fun e' h' => hes e' (List.mem_cons_of_mem e h')
    rcases he with he | he <;> rw [List.foldl_cons, he]
    · rw [hnext]; exact ih hrest
    · rw [hprev]; exact ih hrest

/-- A single-item state. -/
def exSingle : DisplayState :=
  { announcements := [annA]
    currentIndex := 0
    refreshInterval := 5
    loading := false
    armed := Option.none
    live := []
    nextHandle := 0 }

/-- Witness for C7 at the concrete single-item state. -/
theorem C7_single_item_witness :
    (runCycleEffect exSingle).live = [] ∧
    step exSingle Event.next = exSingle ∧ step exSingle Event.prev = exSingle := by
  obtain ⟨h1, h2, h3, _⟩ := C7_single_item exSingle rfl rfl rfl
  exact ⟨h1, h2, h3⟩

/-! ### At most one outstanding advance timer -/

/-- The timer bookkeeping invariant of the mounted component: at most one
timer is outstanding, and any outstanding timer is exactly the one stored in
the cycle effect's cleanup closure. -/
def WellFormed (s : DisplayState) : Prop :=
  s.live.length ≤ 1 ∧ ∀ t ∈ s.live, s.armed = Option.some t.handle

theorem cleaned_eq_nil (s : DisplayState)
    (hwf : ∀ t ∈ s.live, s.armed = Option.some t.handle) :
    s.live.filter (fun t => !(s.armed == Option.some t.handle)) = [] := by
  rw [List.filter_eq_nil_iff]
  intro t ht
  simp [hwf t ht]

theorem runCycleEffect_wf (s : DisplayState) (hwf : WellFormed s) :
    WellFormed (runCycleEffect s) := by
  obtain ⟨-, h2⟩ := hwf
  unfold runCycleEffect
  rw [cleaned_eq_nil s h2]
  by_cases h : s.announcements.length ≤ 1
  · rw [if_pos h]
    exact ⟨by simp, by simp⟩
  · rw [if_neg h]
    constructor
    · simp
    · intro t ht
      simp only [List.nil_append, List.mem_singleton] at ht
      simp [ht]

theorem applyEvent_wf (s : DisplayState) (e : Event) (hwf : WellFormed s) :
    WellFormed (applyEvent s e) := by
  obtain ⟨h1, h2⟩ := hwf
  cases e with
  | fire h =>
    simp only [applyEvent]
    split
    · exact ⟨h1, h2⟩
    · exact ⟨le_trans (List.length_filter_le _ _) h1,
        fun t' ht' => h2 t' (List.mem_of_mem_filter ht')⟩
  | next =>
    simp only [applyEvent]
    split
    · exact ⟨h1, h2⟩
    · exact ⟨h1, h2⟩
  | prev =>
    simp only [applyEvent]
    split
    · exact ⟨h1, h2⟩
    · exact ⟨h1, h2⟩
  | select i => exact ⟨h1, h2⟩
  | replace l => exact ⟨h1, h2⟩

theorem step_wf (s : DisplayState) (e : Event) (hwf : WellFormed s) :
    WellFormed (step s e) := by
  cases e with
  | replace l => exact runCycleEffect_wf _ (applyEvent_wf s _ hwf)
  | fire h =>
    unfold step
    dsimp only
    split
    · exact applyEvent_wf s _ hwf
    · exact runCycleEffect_wf _ (applyEvent_wf s _ hwf)
  | next =>
    unfold step
    dsimp only
    split
    · exact applyEvent_wf s _ hwf
    · exact runCycleEffect_wf _ (applyEvent_wf s _ hwf)
  | prev =>
    unfold step
    dsimp only
    split
    · exact applyEvent_wf s _ hwf
    · exact runCycleEffect_wf _ (applyEvent_wf s _ hwf)
  | select i =>
    unfold step
    dsimp only
    split
    · exact applyEvent_wf s _ hwf
    · exact runCycleEffect_wf _ (applyEvent_wf s _ hwf)

theorem foldl_step_wf (es : List Event) (s : DisplayState) (hwf : WellFormed s) :
    WellFormed (es.foldl step s) := by
  induction es generalizing s with
  | nil => exact hwf
  | cons e rest ih => exact ih (step s e) (step_wf s e hwf)

/-- A manual navigation in a cycling state (length ≥ 2) re-runs the cycle
effect: the previous timer is cancelled and exactly one fresh timer is armed. -/
theorem step_nav_exactly_one (s : DisplayState) (e : Event)
    (he : e = Event.next ∨ e = Event.prev)
    (hN : 2 ≤ s.announcements.length) (hwf : WellFormed s) :
    (step s e).live.length = 1 ∧ (step s e).announcements = s.announcements := by
  obtain ⟨-, h2⟩ := hwf
  have hne : s.announcements.length ≠ 0 := by omega
  have hN' : (2 : Int) ≤ (s.announcements.length : Int) := by exact_mod_cast hN
  have harm : ∀ s' : DisplayState, s'.live = s.live → s'.armed = s.armed →
      s'.announcements = s.announcements → (runCycleEffect s').live.length = 1 := by
    intro s' hl ha hann
    unfold runCycleEffect
    rw [if_neg (by rw [hann]; omega)]
    have : s'.live.filter (fun t => !(s'.armed == Option.some t.handle)) = [] := by
      apply cleaned_eq_nil
      intro t ht
      rw [ha]
      exact h2 t (hl ▸ ht)
    simp [this]
  rcases he with he | he <;> subst he
  · refine ⟨?_, (step_next_projs s hne).2⟩
    unfold step
    rw [applyEvent_next_eq s hne]
    dsimp only
    rw [if_neg (next_emod_ne s.currentIndex _ hN')]
    exact harm _ rfl rfl rfl
  · refine ⟨?_, (step_prev_projs s hne).2⟩
    unfold step
    rw [applyEvent_prev_eq s hne]
    dsimp only
    rw [if_neg (prev_emod_ne s.currentIndex _ hN')]
    exact harm _ rfl rfl rfl

/-- C2: starting from any well-formed state, any sequence of timer expiries,
manual navigations, direct selections and list replacements leaves at most one
advance timer outstanding — every index change or list replacement cancels the
previously armed timer before arming a new one — and a nonempty burst of rapid
manual navigation in a cycling state leaves exactly one armed timer. -/
theorem C2_at_most_one_timer (s : DisplayState) (es : List Event)
    (hwf : WellFormed s) :
    (es.foldl step s).live.length ≤ 1 ∧
    (2 ≤ s.announcements.length → es ≠ [] →
      (∀ e ∈ es, e = Event.next ∨ e = Event.prev) →
      (es.foldl step s).live.length = 1) := by
  refine ⟨(foldl_step_wf es s hwf).1, ?_⟩
  intro hN hne hnav
  induction es generalizing s with
  | nil => exact absurd rfl hne
  | cons e rest ih =>
    have he := hnav e (List.mem_cons_self e rest)
    have hrest : ∀ e' ∈ rest, e' = Event.next ∨ e' = Event.prev :=
      fun e' h' => hnav e' (List.mem_cons_of_mem e h')
    obtain ⟨hone, hann⟩ := step_nav_exactly_one s e he hN hwf
    rw [List.foldl_cons]
    cases rest with
    | nil => exact hone
    | cons e' rest' =>
      exact ih (step s e) (step_wf s e hwf) (by rw [hann]; exact hN)
        (by simp) hrest

/-- Witness for C2: a burst of three rapid manual navigations from the
concrete cycling state leaves exactly one armed timer. -/
theorem C2_at_most_one_timer_witness :
    (([Event.next, Event.next, Event.prev].foldl step exCycling3)).live.length = 1 :=
  (C2_at_most_one_timer exCycling3 [Event.next, Event.next, Event.prev]
    ⟨by decide, by decide⟩).2 (by decide) (by simp)
    (by intro e he; fin_cases he <;> simp)

/-! ### Arming and firing the advance timer -/

theorem cycleDuration_eq (l : List Announcement) (i : Int) (d : Int)
    (hd : rawDuration l i = Option.some d) (hd0 : d ≠ 0) :
    cycleDuration l i = d * 1000 := by
  unfold cycleDuration
  rw [hd]
  dsimp only
  rw [if_neg hd0]

theorem cycleDuration_default (l : List Announcement) (i : Int)
    (hd : rawDuration l i = Option.none ∨ rawDuration l i = Option.some 0) :
    cycleDuration l i = 10 * 1000 := by
  unfold cycleDuration
  rcases hd with hd | hd <;> rw [hd] <;> simp

theorem rawDuration_out_of_range (l : List Announcement) (i : Int)
    (h : ¬(0 ≤ i ∧ i < (l.length : Int))) : rawDuration l i = Option.none := by
  unfold rawDuration jsGet
  by_cases h0 : 0 ≤ i
  · rw [if_pos h0]
    have hlen : l.length ≤ i.toNat := by omega
    rw [List.get?_eq_none.mpr hlen]
    rfl
  · rw [if_neg h0]
    rfl

theorem runCycleEffect_arm (s : DisplayState) (hN : 2 ≤ s.announcements.length)
    (hclean : s.live.filter (fun t => !(s.armed == Option.some t.handle)) = []) :
    runCycleEffect s =
      { s with
          live := [⟨s.nextHandle, cycleDuration s.announcements s.currentIndex,
                    s.announcements.length⟩],
          armed := Option.some s.nextHandle,
          nextHandle := s.nextHandle + 1 } := by
  have h : ¬ s.announcements.length ≤ 1 := by omega
  simp only [runCycleEffect, if_neg h, hclean, List.nil_append]

/-- When the cycle effect runs in a cycling state whose outstanding timers are
exactly the one its cleanup will clear, it leaves exactly one fresh timer,
armed for the current item's computed duration and capturing the current list
length. -/
theorem arm_step (s : DisplayState) (hN : 2 ≤ s.announcements.length)
    (hwf : ∀ t ∈ s.live, s.armed = Option.some t.handle) :
    ∃ t : Timer, (runCycleEffect s).live = [t] ∧
      t.delayMs = cycleDuration s.announcements s.currentIndex ∧
      (runCycleEffect s).armed = Option.some t.handle ∧
      t.capturedLen = s.announcements.length ∧
      (runCycleEffect s).currentIndex = s.currentIndex ∧
      (runCycleEffect s).announcements = s.announcements := by
  have e1 := runCycleEffect_arm s hN (cleaned_eq_nil s hwf)
  exact ⟨⟨s.nextHandle, cycleDuration s.announcements s.currentIndex,
    s.announcements.length⟩, by rw [e1], rfl, by rw [e1], rfl, by rw [e1], by rw [e1]⟩

theorem applyEvent_fire_single (s : DisplayState) (t : Timer) (hlive : s.live = [t]) :
    applyEvent s (Event.fire t.handle) =
      { s with live := [],
               currentIndex := (s.currentIndex + 1) % (t.capturedLen : Int) } := by
  simp [applyEvent, hlive]

/-- Firing the single armed timer advances the index by one modulo the
captured list length and re-arms exactly one fresh timer for the new current
item's computed duration. -/
theorem fire_step (s : DisplayState) (t : Timer)
    (hlive : s.live = [t]) (harmed : s.armed = Option.some t.handle)
    (hcap : t.capturedLen = s.announcements.length)
    (hN : 2 ≤ s.announcements.length) :
    (step s (Event.fire t.handle)).currentIndex =
      (s.currentIndex + 1) % (s.announcements.length : Int) ∧
    (step s (Event.fire t.handle)).announcements = s.announcements ∧
    ∃ t' : Timer, (step s (Event.fire t.handle)).live = [t'] ∧
      t'.delayMs = cycleDuration s.announcements
        ((s.currentIndex + 1) % (s.announcements.length : Int)) ∧
      (step s (Event.fire t.handle)).armed = Option.some t'.handle ∧
      t'.capturedLen = s.announcements.length := by
  have hN' : (2 : Int) ≤ (s.announcements.length : Int) := by exact_mod_cast hN
  have e2 := applyEvent_fire_single s t hlive
  rw [hcap] at e2
  have hne := next_emod_ne s.currentIndex (s.announcements.length : Int) hN'
  have estep : step s (Event.fire t.handle) =
      runCycleEffect { s with live := [],
                              currentIndex := (s.currentIndex + 1) %
                                (s.announcements.length : Int) } := by
    unfold step
    dsimp only
    rw [e2]
    dsimp only
    rw [if_neg hne]
  rw [estep]
  obtain ⟨t', ha1, ha2, ha3, ha4, ha5, ha6⟩ := arm_step
    { s with live := [],
             currentIndex := (s.currentIndex + 1) % (s.announcements.length : Int) }
    (by exact hN) (by intro t'' ht''; simp at ht'')
  exact ⟨ha5, ha6, t', ha1, ha2, ha3, ha4⟩

/-- C1: in a cycling state (length ≥ 2, in-range index), the cycle effect arms
one timer for the current item's `display_duration` seconds converted to
milliseconds; on its expiry the index becomes `(current_index + 1) mod length`
and one new timer is armed for the new current item's duration. -/
theorem C1_rotation_step (s : DisplayState)
    (hN : 2 ≤ s.announcements.length)
    (h0 : 0 ≤ s.currentIndex) (h1 : s.currentIndex < (s.announcements.length : Int))
    (hlive : s.live = []) (harmed : s.armed = Option.none)
    (d d' : Int)
    (hd : rawDuration s.announcements s.currentIndex = Option.some d) (hd0 : d ≠ 0)
    (hd' : rawDuration s.announcements
        ((s.currentIndex + 1) % (s.announcements.length : Int)) = Option.some d')
    (hd'0 : d' ≠ 0) :
    ∃ t : Timer, (runCycleEffect s).live = [t] ∧ t.delayMs = d * 1000 ∧
      (step (runCycleEffect s) (Event.fire t.handle)).currentIndex =
        (s.currentIndex + 1) % (s.announcements.length : Int) ∧
      ∃ t' : Timer, (step (runCycleEffect s) (Event.fire t.handle)).live = [t'] ∧
        t'.delayMs = d' * 1000 := by
  obtain ⟨t, ha1, ha2, ha3, ha4, ha5, ha6⟩ := arm_step s hN
    (by rw [hlive]; intro t' ht'; simp at ht')
  obtain ⟨hf1, hf2, t', hf3, hf4, hf5, hf6⟩ := fire_step (runCycleEffect s) t ha1 ha3
    (by rw [ha4, ha6]) (by rw [ha6]; exact hN)
  simp only [ha5, ha6] at hf1 hf4
  refine ⟨t, ha1, ?_, hf1, t', hf3, ?_⟩
  · rw [ha2, cycleDuration_eq s.announcements s.currentIndex d hd hd0]
  · rw [hf4, cycleDuration_eq s.announcements _ d' hd' hd'0]

/-- A two-item cycling state, freshly mounted (no timer armed yet). -/
def exFresh2 : DisplayState :=
  { announcements := [annA, annB]
    currentIndex := 0
    refreshInterval := 5
    loading := false
    armed := Option.none
    live := []
    nextHandle := 0 }

/-- Witness for C1 on the two-item list with durations 5 s and 7 s. -/
theorem C1_rotation_step_witness :
    ∃ t : Timer, (runCycleEffect exFresh2).live = [t] ∧ t.delayMs = 5000 ∧
      (step (runCycleEffect exFresh2) (Event.fire t.handle)).currentIndex = 1 ∧
      ∃ t' : Timer, (step (runCycleEffect exFresh2) (Event.fire t.handle)).live = [t'] ∧
        t'.delayMs = 7000 := by
  obtain ⟨t, h1, h2, h3, t', h4, h5⟩ := C1_rotation_step exFresh2 (by decide)
    (by decide) (by decide) rfl rfl 5 7 (by decide) (by decide) (by decide) (by decide)
  refine ⟨t, h1, by rw [h2]; decide, by rw [h3]; decide, t', h4, by rw [h5]; decide⟩

/-- C9: the rotation step is total outside the cycling preconditions — with an
out-of-range index, or a missing or zero `display_duration`, the timer is
still armed, with the 10-second default delay, and its expiry still advances
the index to `(current_index + 1) mod length`. -/
theorem C9_duration_fallback (s : DisplayState)
    (hN : 2 ≤ s.announcements.length)
    (hlive : s.live = []) (harmed : s.armed = Option.none)
    (hfall : rawDuration s.announcements s.currentIndex = Option.none ∨
             rawDuration s.announcements s.currentIndex = Option.some 0) :
    ∃ t : Timer, (runCycleEffect s).live = [t] ∧ t.delayMs = 10 * 1000 ∧
      (step (runCycleEffect s) (Event.fire t.handle)).currentIndex =
        (s.currentIndex + 1) % (s.announcements.length : Int) := by
  obtain ⟨t, ha1, ha2, ha3, ha4, ha5, ha6⟩ := arm_step s hN
    (by rw [hlive]; intro t' ht'; simp at ht')
  obtain ⟨hf1, -, -⟩ := fire_step (runCycleEffect s) t ha1 ha3
    (by rw [ha4, ha6]) (by rw [ha6]; exact hN)
  simp only [ha5, ha6] at hf1
  exact ⟨t, ha1, by rw [ha2, cycleDuration_default s.announcements _ hfall], hf1⟩

/-- A two-item state whose index 5 is out of range. -/
def exOutOfRange : DisplayState :=
  { announcements := [annA, annB]
    currentIndex := 5
    refreshInterval := 5
    loading := false
    armed := Option.none
    live := []
    nextHandle := 0 }

/-- Witness for C9: index 5 on a two-item list gets a 10-second timer whose
expiry lands on index (5+1) mod 2 = 0. -/
theorem C9_duration_fallback_witness :
    ∃ t : Timer, (runCycleEffect exOutOfRange).live = [t] ∧ t.delayMs = 10000 ∧
      (step (runCycleEffect exOutOfRange) (Event.fire t.handle)).currentIndex = 0 := by
  obtain ⟨t, h1, h2, h3⟩ := C9_duration_fallback exOutOfRange (by decide) rfl rfl
    (Or.inl (by decide))
  exact ⟨t, h1, by rw [h2]; decide, by rw [h3]; decide⟩

/-! ### List replacement and index clamping -/

theorem step_replace_eq (s : DisplayState) (l' : List Announcement) :
    step s (Event.replace l') = runCycleEffect { s with announcements := l' } := rfl

theorem runCycleEffect_short (s : DisplayState) (h : s.announcements.length ≤ 1)
    (hwf : ∀ t ∈ s.live, s.armed = Option.some t.handle) :
    (runCycleEffect s).live = [] := by
  simp only [runCycleEffect, if_pos h]
  exact cleaned_eq_nil s hwf

/-- C3 counterexample: in the cycling state with index 2 over three items,
replacing the list by a single item leaves `current_index = 2`, out of range
of the new list, after the reconciliation — and no timer is armed, so no
subsequent rotation step will re-clamp it either. -/
theorem C3_counterexample :
    (step exCycling3 (Event.replace [annA])).announcements.length = 1 ∧
    (step exCycling3 (Event.replace [annA])).currentIndex = 2 ∧
    ¬ (step exCycling3 (Event.replace [annA])).currentIndex <
        ((step exCycling3 (Event.replace [annA])).announcements.length : Int) ∧
    (step exCycling3 (Event.replace [annA])).live = [] := by
  decide

/-- C3 (amended): a list replacement itself never changes `current_index`, so
an in-range index is left unchanged (never reset to 0).  When the new list is
shorter with `current_index` out of range, the reconciliation also leaves the
index unchanged: if the new length is ≥ 2 a timer is armed — with the
10-second default delay, the out-of-range lookup yielding no item — whose
expiry clamps the index into range via `(current_index + 1) mod length`; if
the new length is ≤ 1 no timer is armed and the index stays out of range. -/
theorem C3_replace_reconciliation (s : DisplayState) (l' : List Announcement)
    (hwf : ∀ t ∈ s.live, s.armed = Option.some t.handle) :
    (step s (Event.replace l')).currentIndex = s.currentIndex ∧
    (step s (Event.replace l')).announcements = l' ∧
    (l'.length ≤ 1 → (step s (Event.replace l')).live = []) ∧
    (2 ≤ l'.length → ¬ (0 ≤ s.currentIndex ∧ s.currentIndex < (l'.length : Int)) →
      ∃ t : Timer, (step s (Event.replace l')).live = [t] ∧ t.delayMs = 10 * 1000 ∧
        (step (step s (Event.replace l')) (Event.fire t.handle)).currentIndex =
          (s.currentIndex + 1) % (l'.length : Int) ∧
        0 ≤ (s.currentIndex + 1) % (l'.length : Int) ∧
        (s.currentIndex + 1) % (l'.length : Int) < (l'.length : Int)) := by
  rw [step_replace_eq]
  refine ⟨runCycleEffect_currentIndex _, runCycleEffect_announcements _, ?_, ?_⟩
  · intro hle
    exact runCycleEffect_short { s with announcements := l' } hle hwf
  · intro hN hout
    obtain ⟨t, ha1, ha2, ha3, ha4, ha5, ha6⟩ :=
      arm_step { s with announcements := l' } hN hwf
    obtain ⟨hf1, -, -⟩ := fire_step (runCycleEffect { s with announcements := l' }) t
      ha1 ha3 (by rw [ha4, ha6]) (by rw [ha6]; exact hN)
    simp only [ha5, ha6] at hf1
    have hraw : rawDuration l' s.currentIndex = Option.none :=
      rawDuration_out_of_range l' s.currentIndex hout
    have hpos : (0 : Int) < (l'.length : Int) := by exact_mod_cast (by omega : 0 < l'.length)
    refine ⟨t, ha1, ?_, hf1, Int.emod_nonneg _ (by omega), Int.emod_lt_of_pos _ hpos⟩
    rw [ha2]
    exact cycleDuration_default l' s.currentIndex (Or.inl hraw)

/-- Witness for the amended C3: replacing the three-item list (index 2) by a
two-item list leaves the out-of-range index 2 untouched, arms a 10-second
timer, and its expiry lands on (2+1) mod 2 = 1. -/
theorem C3_replace_reconciliation_witness :
    (step exCycling3 (Event.replace [annA, annB])).currentIndex = 2 ∧
    ∃ t : Timer, (step exCycling3 (Event.replace [annA, annB])).live = [t] ∧
      t.delayMs = 10000 ∧
      (step (step exCycling3 (Event.replace [annA, annB]))
        (Event.fire t.handle)).currentIndex = 1 := by
  obtain ⟨h1, h2, h3, h4⟩ := C3_replace_reconciliation exCycling3 [annA, annB] (by decide)
  obtain ⟨t, ht1, ht2, ht3, ht4, ht5⟩ := h4 (by decide) (by decide)
  exact ⟨by rw [h1]; decide, t, ht1, by rw [ht2]; decide, by rw [ht3]; decide⟩

/-! ### The preload selector -/

/-- C4: for every in-range current index, the materialized set is the whole
index range (i.e. exactly the current index) when the length is ≤ 1, and
exactly the current, next and previous indices modulo the length when the
length is ≥ 2; in either case at most 3 media elements are loaded. -/
theorem C4_preload_set (l : List Announcement) (c : Nat) (hc : c < l.length) :
    (l.length ≤ 1 → loadedSet l (c : Int) = {c}) ∧
    (2 ≤ l.length → loadedSet l (c : Int) =
      {c, (c + 1) % l.length, (c + l.length - 1) % l.length}) ∧
    (loadedSet l (c : Int)).card ≤ 3 := by
  have hN : 0 < l.length := lt_of_le_of_lt (Nat.zero_le c) hc
  have hpart1 : l.length ≤ 1 → loadedSet l (c : Int) = {c} := by
    intro hle
    have hc0 : c = 0 := by omega
    subst hc0
    ext i
    simp [loadedSet, isItemLoaded, hle, Finset.mem_filter, Finset.mem_range, Nat.lt_one_iff,
      (by omega : l.length = 1)]
  have hpart2 : 2 ≤ l.length → loadedSet l (c : Int) =
      {c, (c + 1) % l.length, (c + l.length - 1) % l.length} := by
    intro h2
    have hnle : ¬ l.length ≤ 1 := by omega
    have e1 : ((c : Int) + 1) % (l.length : Int) = (((c + 1) % l.length : ℕ) : Int) := by
      push_cast
      rfl
    have e2 : ((c : Int) - 1 + (l.length : Int)) % (l.length : Int) =
        (((c + l.length - 1) % l.length : ℕ) : Int) := by
      have h1' : (1 : ℕ) ≤ c + l.length := by omega
      push_cast [Nat.cast_sub h1']
      congr 1
      ring
    ext i
    simp only [loadedSet, Finset.mem_filter, Finset.mem_range, isItemLoaded, if_neg hnle,
      Bool.or_eq_true, beq_iff_eq, Finset.mem_insert, Finset.mem_singleton]
    rw [e1, e2]
    simp only [Nat.cast_inj, or_assoc]
    constructor
    · rintro ⟨hiN, hi⟩
      exact hi
    · intro hi
      refine ⟨?_, hi⟩
      rcases hi with rfl | rfl | rfl
      · exact hc
      · exact Nat.mod_lt _ (by omega)
      · exact Nat.mod_lt _ (by omega)
  refine ⟨hpart1, hpart2, ?_⟩
  rcases le_or_lt l.length 1 with hle | hlt
  · rw [hpart1 hle]
    simp
  · rw [hpart2 (by omega)]
    calc ({c, (c + 1) % l.length, (c + l.length - 1) % l.length} : Finset ℕ).card
        ≤ ({(c + 1) % l.length, (c + l.length - 1) % l.length} : Finset ℕ).card + 1 :=
          Finset.card_insert_le _ _
      _ ≤ (({(c + l.length - 1) % l.length} : Finset ℕ).card + 1) + 1 :=
          Nat.add_le_add_right (Finset.card_insert_le _ _) 1
      _ = 3 := by simp

def annD : Announcement :=
  ⟨"id-d", "d.webm", Option.some 20, TransitionType.fade, true, "2024-01-04"⟩

def exList4 : List Announcement := [annA, annB, annC, annD]

/-- Witness for C4: four items with current index 1 load exactly indices
{1, 2, 0}. -/
theorem C4_preload_set_witness :
    loadedSet exList4 ((1 : ℕ) : Int) = {1, 2, 0} ∧
    (loadedSet exList4 ((1 : ℕ) : Int)).card ≤ 3 := by
  obtain ⟨-, h2, h3⟩ := C4_preload_set exList4 1 (by decide)
  refine ⟨?_, h3⟩
  rw [h2 (by decide)]
  decide

end WebDisplay
